import Mathlib

/-!
Shallow embedding of `src/main.rs` of the `ccd-tax` exporter.

Modelling conventions:
* `AccountAddress` and `TransactionHash` are opaque identifiers in the source
  (only compared for equality); they are modelled as `Nat`.
* `DateTime<Utc>` is a point on a linear time line; it is modelled as the
  underlying millisecond timestamp (`Int`).  The `Ord` instance of
  `DateTime` is the order on that timestamp.
* `f64` amounts are modelled by exact rationals (`ℚ`): every amount the
  program manipulates is an integer number of micro-CCD divided by
  1 000 000, which `ℚ` represents exactly.
* The date string produced by `format("%Y-%m-%d %H:%M UTC")` is modelled by
  the raw `block_time` value; no claim inspects the rendered text.
* `anyhow::Result` is modelled by `Except String`, `panic`/`expect` and
  serde failures by `Option` (`none` = the run aborts at that point).
-/

deriving instance DecidableEq for Except

abbrev AccountAddress := Nat

abbrev TransactionHash := Nat

/-- The `Details` enum of `main.rs`: the `Transfer` variant carries the
source and destination account, `PaydayAccountReward` and the catch-all
`Other` carry nothing. (`from`/`to` are renamed `fromAcc`/`toAcc` because
`from` is a Lean keyword.) -/
inductive Details where
  | Transfer (fromAcc toAcc : AccountAddress)
  | PaydayAccountReward
  | Other
deriving DecidableEq

inductive KoinlyLabel where
  | Fee
  | Mining
deriving DecidableEq

structure KoinlyRow where
  date : Int
  amount : ℚ
  currency : String
  label : Option KoinlyLabel
  tx_hash : Option TransactionHash
deriving DecidableEq

/-- `KoinlyRow::new_ccd`: builds a row with the fixed currency `"CCD"`. -/
def KoinlyRow.new_ccd (date : Int) (amount : ℚ) (label : Option KoinlyLabel)
    (tx_hash : Option TransactionHash) : KoinlyRow :=
  ⟨date, amount, "CCD", label, tx_hash⟩

/-- The `Transaction` struct of `main.rs`.  `cost` is a
`concordium Amount` (unsigned micro-CCD, modelled `Nat`); `subtotal` and
`total` are signed micro-CCD (`i64`, modelled `Int`); `id` is the `u64`
database id; `block_time` is the millisecond timestamp of the block. -/
structure Transaction where
  hash : Option TransactionHash
  block_time : Int
  details : Details
  cost : Option Nat
  subtotal : Option Int
  total : Option Int
  id : Nat
deriving DecidableEq

/-- The label of the principal row: `Mining` for `PaydayAccountReward`,
nothing otherwise (lines 76-79 of `main.rs`). -/
def principalLabel (d : Details) : Option KoinlyLabel :=
  match d with
  | .PaydayAccountReward => some .Mining
  | _ => none

/-- The `value` row built at lines 81-89 of `main.rs`: amount is
`subtotal.unwrap_or(total) / 1_000_000`. -/
def principalRow (tx : Transaction) (total : Int) : KoinlyRow :=
  KoinlyRow.new_ccd tx.block_time (((tx.subtotal.getD total : Int) : ℚ) / 1000000)
    (principalLabel tx.details) tx.hash

/-- The `fee` row built at lines 95-103 of `main.rs`: amount is
`-(cost.micro_ccd / 1_000_000)`, label `Fee`. -/
def feeRow (tx : Transaction) (cost : Nat) : KoinlyRow :=
  KoinlyRow.new_ccd tx.block_time (-(((cost : Int) : ℚ) / 1000000)) (some .Fee) tx.hash

/-- `impl TryFrom<&Transaction> for Vec<KoinlyRow>` (lines 70-111 of
`main.rs`): requires `total`; emits the principal row alone when `cost` is
absent, the fee row alone when `|total| == cost`, and both otherwise. -/
def tryFromTransaction (tx : Transaction) : Except String (List KoinlyRow) :=
  match tx.total with
  | none => .error "no amount found"
  | some total =>
    let value := principalRow tx total
    match tx.cost with
    | none => .ok [value]
    | some cost =>
      let fee := feeRow tx cost
      if total.natAbs = cost then .ok [fee]
      else .ok [value, fee]

/-- The comparison the `BTreeSet<Transaction>` of `main` uses: `impl Ord
for Transaction` (lines 171-175 of `main.rs`) compares `block_time` only.
`BTreeSet::insert` walks the tree with this order; when it finds an
element comparing equal it keeps the existing entry and drops the new
value.  The set is modelled as the strictly `block_time`-sorted list of
its elements, and `insertTx` as one `insert`. -/
def insertTx (s : List Transaction) (t : Transaction) : List Transaction :=
  match s with
  | [] => [t]
  | x :: xs =>
    if t.block_time < x.block_time then t :: x :: xs
    else if x.block_time < t.block_time then x :: insertTx xs t
    else x :: xs

/-- `transactions.extend(res.transactions)` (line 220 of `main.rs`):
inserts the page's transactions one by one. -/
def extendTx (s : List Transaction) (page : List Transaction) : List Transaction :=
  page.foldl insertTx s

/-- The accumulator state after all pages (in order) have been merged into
the initially empty `BTreeSet`. -/
def accumulate (pages : List (List Transaction)) : List Transaction :=
  pages.foldl extendTx []

/-- The closure of `transactions.retain(...)` (line 234 of `main.rs`):
`matches!(tx.details, Transfer { from, to } if accounts.contains(&from) &&
accounts.contains(&to))`. -/
def isInternalTransfer (accounts : List AccountAddress) (tx : Transaction) : Bool :=
  match tx.details with
  | .Transfer f t => accounts.contains f && accounts.contains t
  | _ => false

/-- `transactions.retain(|tx| !matches!(...))` (line 234 of `main.rs`). -/
def retainTransactions (txs : List Transaction) (accounts : List AccountAddress) :
    List Transaction :=
  txs.filter (fun tx => !(isInternalTransfer accounts tx))

/-- The export step (lines 237-241 of `main.rs`):
`transactions.iter().filter_map(|tx| Vec::try_from(tx).ok()).flatten()`. -/
def formatted (txs : List Transaction) : List KoinlyRow :=
  (txs.filterMap (fun tx => (tryFromTransaction tx).toOption)).flatten

/-- The wallet-proxy page shape (lines 177-183 of `main.rs`). -/
structure TransactionsResponse where
  count : Nat
  limit : Nat
  transactions : List Transaction
deriving DecidableEq

/-- The continuation flag computed in `request_transactions` (line 206 of
`main.rs`): `res.count == res.limit`. -/
def hasMore (res : TransactionsResponse) : Bool :=
  res.count == res.limit

/-- The per-account pagination loop of `main` (lines 218-230 of
`main.rs`) run against a stub fetcher that answers the successive requests
with the given list of responses; returns how many fetches the loop
performs.  Each iteration fetches once, then breaks if `!has_more`, then
breaks if the page has no last element, else advances the cursor. -/
def paginateFetchCount : List TransactionsResponse → Nat
  | [] => 0
  | r :: rest =>
    if hasMore r = false then 1
    else if r.transactions.isEmpty then 1
    else 1 + paginateFetchCount rest

/-- The same loop, threading the accumulator set and letting each fetch
fail (`request_transactions(...).await?` at line 219 of `main.rs`: an
`Err` propagates out of `main` via `?`). -/
def paginateInto (s : List Transaction) :
    List (Except String TransactionsResponse) → Except String (List Transaction)
  | [] => .ok s
  | .error e :: _ => .error e
  | .ok r :: rest =>
    let s2 := extendTx s r.transactions
    if hasMore r = false then .ok s2
    else if r.transactions.isEmpty then .ok s2
    else paginateInto s2 rest

/-- The `for account in &args.accounts` loop of `main` (lines 216-231 of
`main.rs`): one response script per account; the `?` on a failed fetch
aborts the whole loop, i.e. the whole run. -/
def runAccounts (s : List Transaction) :
    List (List (Except String TransactionsResponse)) → Except String (List Transaction)
  | [] => .ok s
  | sc :: rest =>
    match paginateInto s sc with
    | .error e => .error e
    | .ok s2 => runAccounts s2 rest

/-- Truncation toward zero, the semantics of Rust's `as i64` cast on a
finite float value. -/
def ratTrunc (q : ℚ) : Int :=
  if 0 ≤ q then ⌊q⌋ else ⌈q⌉

/-- Saturation to the `i64` range, the other half of the `as i64` cast. -/
def i64Sat (n : Int) : Int :=
  if n < -9223372036854775808 then -9223372036854775808
  else if 9223372036854775807 < n then 9223372036854775807
  else n

/-- Modelled from chrono's `DateTime::from_timestamp_millis`, used at line
190 of `main.rs`: `some` exactly on chrono's representable range (about
±262 000 years around the epoch; the exact boundary values are chrono's
documented second bounds ±8334601228800/8210266876799 scaled to
milliseconds, and no theorem below depends on their precise value — both
lie far inside the `i64` range). -/
def fromTimestampMillis (ms : Int) : Option Int :=
  if -8334601228800000 ≤ ms ∧ ms ≤ 8210266876799999 then some ms else none

/-- `deserialize_block_time` (lines 185-193 of `main.rs`): reads the
floating-point second timestamp, computes `(timestamp * 1000.0) as i64`
and calls `from_timestamp_millis(..).expect("Can convert timestamp")`.
The `expect` panic is modelled as `none`. -/
def deserialize_block_time (timestamp : ℚ) : Option Int :=
  fromTimestampMillis (i64Sat (ratTrunc (timestamp * 1000)))

/-- One element of a fetched page before deserialization: the fields of
the JSON object that survive into `Transaction`, with the block time still
in floating-point seconds. -/
structure RawTransaction where
  hash : Option TransactionHash
  blockTime : ℚ
  details : Details
  cost : Option Nat
  subtotal : Option Int
  total : Option Int
  id : Nat

/-- Deserializing one transaction: everything is carried over unchanged
except `block_time`, which goes through `deserialize_block_time`. -/
def deserializeTransaction (r : RawTransaction) : Option Transaction :=
  (deserialize_block_time r.blockTime).map (fun bt =>
    ⟨r.hash, bt, r.details, r.cost, r.subtotal, r.total, r.id⟩)

/-- Deserializing a page: serde deserializes the `transactions` array
element by element and the first failure (here: the `expect` panic inside
`deserialize_block_time`) aborts the whole run. -/
def deserializeTransactions : List RawTransaction → Option (List Transaction)
  | [] => some []
  | r :: rs =>
    (deserializeTransaction r).bind (fun t =>
      (deserializeTransactions rs).map (fun ts => t :: ts))

/-- Strict `block_time`-sortedness: the representation invariant of the
`BTreeSet` model (a `BTreeSet` holds no two elements its `Ord` considers
equal). -/
def StrictByTime (l : List Transaction) : Prop :=
  l.Pairwise (fun a b => a.block_time < b.block_time)

theorem mem_insertTx {s : List Transaction} {t y : Transaction}
    (h : y ∈ insertTx s t) : y = t ∨ y ∈ s := by
  induction s with
  | nil => simpa [insertTx] using h
  | cons x xs ih =>
    simp only [insertTx] at h
    split at h
    · rcases List.mem_cons.mp h with h1 | h1
      · exact Or.inl h1
      · exact Or.inr h1
    · split at h
      · rcases List.mem_cons.mp h with h1 | h1
        · exact Or.inr (by simp [h1])
        · rcases ih h1 with h2 | h2
          · exact Or.inl h2
          · exact Or.inr (List.mem_cons_of_mem _ h2)
      · exact Or.inr h

theorem insertTx_strict {s : List Transaction} (hs : StrictByTime s)
    (t : Transaction) : StrictByTime (insertTx s t) := by
  induction s with
  | nil => simp [insertTx, StrictByTime]
  | cons x xs ih =>
    simp only [StrictByTime] at hs ⊢
    rcases List.pairwise_cons.mp hs with ⟨hx, hxs⟩
    simp only [insertTx]
    split
    · refine List.pairwise_cons.mpr ⟨?_, hs⟩
      intro b hb
      rcases List.mem_cons.mp hb with rfl | hb'
      · assumption
      · exact lt_trans (by assumption) (hx b hb')
    · split
      · refine List.pairwise_cons.mpr ⟨?_, ih hxs⟩
        intro b hb
        rcases mem_insertTx hb with rfl | hb'
        · assumption
        · exact hx b hb'
      · exact hs

theorem extendTx_strict (page : List Transaction) {s : List Transaction}
    (hs : StrictByTime s) : StrictByTime (extendTx s page) := by
  induction page generalizing s with
  | nil => exact hs
  | cons t ts ih => exact ih (insertTx_strict hs t)

theorem foldl_extendTx_strict (pages : List (List Transaction))
    {s : List Transaction} (hs : StrictByTime s) :
    StrictByTime (pages.foldl extendTx s) := by
  induction pages generalizing s with
  | nil => exact hs
  | cons p ps ih => exact ih (extendTx_strict p hs)

theorem insertTx_eq_of_mem_time {s : List Transaction} {b t : Transaction}
    (hs : StrictByTime s) (hb : b ∈ s) (hbt : b.block_time = t.block_time) :
    insertTx s t = s := by
  induction s with
  | nil => cases hb
  | cons x xs ih =>
    simp only [StrictByTime] at hs
    rcases List.pairwise_cons.mp hs with ⟨hx, hxs⟩
    rcases List.mem_cons.mp hb with rfl | hb'
    · have h1 : ¬ t.block_time < b.block_time := by omega
      have h2 : ¬ b.block_time < t.block_time := by omega
      simp only [insertTx]
      rw [if_neg h1, if_neg h2]
    · have hxb : x.block_time < b.block_time := hx b hb'
      have h1 : ¬ t.block_time < x.block_time := by omega
      have h2 : x.block_time < t.block_time := by omega
      simp only [insertTx]
      rw [if_neg h1, if_pos h2, ih hxs hb']

/-- Concrete transactions used by the closed theorems below. -/
def txFeeOnly : Transaction := ⟨none, 0, .Other, some 1000, none, some 1000, 1⟩

def txNoCost : Transaction := ⟨none, 5, .PaydayAccountReward, none, none, some 2000000, 2⟩

def txOld : Transaction := ⟨none, 100, .Other, none, none, some 1, 1⟩

def txDupId : Transaction := ⟨none, 200, .Other, none, none, some 3, 1⟩

def txNewId : Transaction := ⟨none, 100, .Other, none, none, some 2, 2⟩

/-- C1 (code bug): the merged set is a `BTreeSet` whose `Ord` compares
`block_time` only, so inserting a transaction whose `id` already occurs
but whose `block_time` differs is NOT a no-op: the duplicate id is
inserted, contradicting the dedup-by-`id` intent stated in the source's
own comment (`Avoid duplicates by using the ID from the DB`, line 156).
Here `txDupId` has the same `id` as `txOld` (both 1) but a later
`block_time`, and inserting it grows the collection. -/
theorem c1_duplicate_id_not_noop :
    txDupId.id = txOld.id ∧
    insertTx [txOld] txDupId = [txOld, txDupId] ∧
    insertTx [txOld] txDupId ≠ [txOld] := by
  decide

/-- C6: whatever pages arrive and in whatever order they are inserted, the
accumulator's final collection is strictly sorted ascending by
`block_time` — in particular the order is total and deterministic (no two
distinct elements are tied on `block_time`, so there is no
nondeterministic tie arrangement), and it is weakly ascending. -/
theorem c6_sorted_deterministic :
    ∀ pages : List (List Transaction),
      StrictByTime (accumulate pages) ∧
      (accumulate pages).Pairwise (fun a b => a.block_time ≤ b.block_time) := by
  intro pages
  have h : StrictByTime (accumulate pages) :=
    foldl_extendTx_strict pages (by simp [StrictByTime])
  exact ⟨h, List.Pairwise.imp (fun hab => le_of_lt hab) h⟩

/-- C10: inserting a transaction with a fresh `id` but a `block_time`
equal to that of some element already in the (strictly sorted) collection
is a no-op: `BTreeSet` membership is decided by the `block_time` `Ord`,
not by `id`, so the new transaction is silently dropped and never appears. -/
theorem c10_time_collision_dropped :
    ∀ (s : List Transaction) (t b : Transaction),
      StrictByTime s → b ∈ s → b.block_time = t.block_time →
      (∀ x ∈ s, x.id ≠ t.id) →
      insertTx s t = s ∧ t ∉ insertTx s t := by
  intro s t b hs hb hbt hids
  have heq : insertTx s t = s := insertTx_eq_of_mem_time hs hb hbt
  refine ⟨heq, ?_⟩
  rw [heq]
  intro ht
  exact hids t ht rfl

/-- Witness for C10: the singleton collection `[txOld]` (block time 100),
inserting `txNewId` (fresh id 2, same block time 100) leaves it unchanged. -/
theorem c10_witness :
    insertTx [txOld] txNewId = [txOld] ∧ txNewId ∉ insertTx [txOld] txNewId :=
  c10_time_collision_dropped [txOld] txNewId txOld
    (by simp [StrictByTime]) (by simp) rfl (by decide)

/-- C2: with `total` present the transformer returns exactly the principal
row when `cost` is absent, exactly the fee row (label `Fee`, amount
`-(cost/1_000_000)`) when `cost` is present and `|total| = cost`, and
exactly the pair `[principal, fee]` otherwise; in particular `total =
1000`, `cost = 1000` yields the single row with label `Fee` and amount
`-0.001`. -/
theorem c2_row_cases :
    (∀ (tx : Transaction) (total : Int), tx.total = some total →
      (tx.cost = none → tryFromTransaction tx = .ok [principalRow tx total]) ∧
      (∀ c : Nat, tx.cost = some c → total.natAbs = c →
        tryFromTransaction tx = .ok [feeRow tx c] ∧
        (feeRow tx c).label = some KoinlyLabel.Fee ∧
        (feeRow tx c).amount = -(((c : Int) : ℚ) / 1000000)) ∧
      (∀ c : Nat, tx.cost = some c → total.natAbs ≠ c →
        tryFromTransaction tx = .ok [principalRow tx total, feeRow tx c])) ∧
    (∀ tx : Transaction, tx.total = some 1000 → tx.cost = some 1000 →
      tryFromTransaction tx = .ok [feeRow tx 1000] ∧
      (feeRow tx 1000).label = some KoinlyLabel.Fee ∧
      (feeRow tx 1000).amount = -(1/1000 : ℚ)) := by
  constructor
  · intro tx total htot
    refine ⟨?_, ?_, ?_⟩
    · intro hc
      simp [tryFromTransaction, htot, hc]
    · intro c hc heq
      refine ⟨by simp [tryFromTransaction, htot, hc, heq], rfl, rfl⟩
    · intro c hc hne
      simp [tryFromTransaction, htot, hc, hne]
  · intro tx htot hc
    refine ⟨by simp [tryFromTransaction, htot, hc], rfl, ?_⟩
    simp only [feeRow, KoinlyRow.new_ccd]
    norm_num

/-- Witness for C2: the fee-only branch at `txFeeOnly` (total 1000, cost
1000) and the no-cost branch at `txNoCost` (a reward with no fee). -/
theorem c2_row_cases_witness :
    tryFromTransaction txFeeOnly = .ok [feeRow txFeeOnly 1000] ∧
    tryFromTransaction txNoCost = .ok [principalRow txNoCost 2000000] :=
  ⟨(c2_row_cases.2 txFeeOnly rfl rfl).1,
   (c2_row_cases.1 txNoCost 2000000 rfl).1 rfl⟩

/-- A transaction with `total = 5000`, `cost = 200` and no `subtotal`:
the concrete input of the spec's "split event" test property. -/
def txSplit : Transaction := ⟨none, 0, .Other, some 200, none, some 5000, 3⟩

/-- Counterexample to C3: at `total = 5000`, `cost = 200` (and `subtotal`
absent) the transformer's principal row has amount `5000/1_000_000 =
0.005`, not the claimed `0.0048`: the code uses `subtotal.unwrap_or(total)`,
it never subtracts the cost from the total. -/
theorem c3_counterexample :
    tryFromTransaction txSplit = .ok [principalRow txSplit 5000, feeRow txSplit 200] ∧
    (principalRow txSplit 5000).amount = (1/200 : ℚ) ∧
    ((1/200 : ℚ) ≠ (48/10000 : ℚ)) := by
  refine ⟨by simp [tryFromTransaction, txSplit], ?_, by norm_num⟩
  simp only [principalRow, KoinlyRow.new_ccd, txSplit]
  norm_num

/-- C3 (amended): the principal row's amount is `(subtotal ?? total) /
1_000_000`; for `total = 5000`, `cost = 200` the transformer yields
principal amount `0.005` and fee amount `-0.0002` when `subtotal` is
absent, and principal amount `0.0048` exactly when `subtotal = 4800` is
present. -/
theorem c3_amount_rule :
    (∀ (tx : Transaction) (total : Int), tx.total = some total →
      (principalRow tx total).amount = ((tx.subtotal.getD total : Int) : ℚ) / 1000000) ∧
    (∀ tx : Transaction, tx.total = some 5000 → tx.cost = some 200 → tx.subtotal = none →
      (tryFromTransaction tx).toOption.map (List.map KoinlyRow.amount) =
        some [(1/200 : ℚ), -(1/5000 : ℚ)]) ∧
    (∀ tx : Transaction, tx.total = some 5000 → tx.cost = some 200 → tx.subtotal = some 4800 →
      (tryFromTransaction tx).toOption.map (List.map KoinlyRow.amount) =
        some [(48/10000 : ℚ), -(1/5000 : ℚ)]) := by
  refine ⟨fun tx total _ => rfl, ?_, ?_⟩
  · intro tx htot hc hsub
    simp [tryFromTransaction, htot, hc, Except.toOption, principalRow, feeRow,
      KoinlyRow.new_ccd, hsub]
    norm_num
  · intro tx htot hc hsub
    simp [tryFromTransaction, htot, hc, Except.toOption, principalRow, feeRow,
      KoinlyRow.new_ccd, hsub]
    norm_num

/-- Witness for C3 (amended): the split rows at `txSplit`. -/
theorem c3_amount_rule_witness :
    (tryFromTransaction txSplit).toOption.map (List.map KoinlyRow.amount) =
      some [(1/200 : ℚ), -(1/5000 : ℚ)] :=
  c3_amount_rule.2.1 txSplit rfl rfl rfl

/-- C5: the self-transfer filter removes exactly the transactions whose
details are `Transfer{from, to}` with both sides in the owned account
list; everything else (a `Transfer` with at most one side owned, every
other variant) is retained unchanged, in its original order. -/
theorem c5_self_transfer_filter :
    ∀ (txs : List Transaction) (accounts : List AccountAddress) (tx : Transaction),
      (tx ∈ retainTransactions txs accounts ↔
        tx ∈ txs ∧
          ¬ ∃ f t, tx.details = Details.Transfer f t ∧ f ∈ accounts ∧ t ∈ accounts) ∧
      (retainTransactions txs accounts).Sublist txs := by
  intro txs accounts tx
  refine ⟨?_, List.filter_sublist txs⟩
  rw [retainTransactions, List.mem_filter]
  rcases htx : tx.details with ⟨f, t⟩ | _ | _
  · simp [isInternalTransfer, htx]
    tauto
  · simp [isInternalTransfer, htx]
  · simp [isInternalTransfer, htx]

/-- A transaction with no `total`: row transformation must fail on it. -/
def txMissing : Transaction := ⟨none, 9, .Other, none, none, none, 9⟩

/-- C7: a transaction without `total` makes the transformer fail with the
missing-amount error, and the export pipeline (`filter_map(.. .ok())`)
skips exactly that transaction: it contributes no rows while the rows of
every other transaction are unchanged. -/
theorem c7_missing_total :
    ∀ tx : Transaction, tx.total = none →
      tryFromTransaction tx = .error "no amount found" ∧
      ∀ l1 l2 : List Transaction, formatted (l1 ++ tx :: l2) = formatted (l1 ++ l2) := by
  intro tx htot
  have herr : tryFromTransaction tx = .error "no amount found" := by
    simp [tryFromTransaction, htot]
  refine ⟨herr, ?_⟩
  intro l1 l2
  simp [formatted, List.filterMap_append, List.filterMap_cons, herr, Except.toOption]

/-- Witness for C7: dropping `txMissing` from the middle of a ledger whose
other transaction is `txNoCost` leaves the output rows unchanged. -/
theorem c7_missing_total_witness :
    formatted [txNoCost, txMissing] = formatted [txNoCost] :=
  (c7_missing_total txMissing rfl).2 [txNoCost] []

/-- C4: `has_more` is exactly `count == limit`; a run of full non-empty
pages followed by a short page (`count < limit`) on the Nth fetch makes
the loop stop after exactly N fetches; and a page with `has_more = true`
but no transactions also stops the loop (no cursor to advance), whatever
responses would follow. -/
theorem c4_pagination :
    (∀ res : TransactionsResponse, hasMore res = true ↔ res.count = res.limit) ∧
    (∀ (pages : List TransactionsResponse) (lastPage : TransactionsResponse)
        (rest : List TransactionsResponse),
      (∀ r ∈ pages, r.count = r.limit ∧ r.transactions ≠ []) →
      lastPage.count < lastPage.limit →
      paginateFetchCount (pages ++ lastPage :: rest) = pages.length + 1) ∧
    (∀ (pages : List TransactionsResponse) (emptyPage : TransactionsResponse)
        (rest : List TransactionsResponse),
      (∀ r ∈ pages, r.count = r.limit ∧ r.transactions ≠ []) →
      hasMore emptyPage = true → emptyPage.transactions = [] →
      paginateFetchCount (pages ++ emptyPage :: rest) = pages.length + 1) := by
  refine ⟨?_, ?_, ?_⟩
  · intro res
    simp [hasMore]
  · intro pages lastPage rest hfull hshort
    induction pages with
    | nil =>
      have h : hasMore lastPage = false := by
        simp only [hasMore, beq_eq_false_iff_ne, ne_eq]
        omega
      simp [paginateFetchCount, h]
    | cons r ps ih =>
      rcases hfull r (List.mem_cons_self r ps) with ⟨h1, h2⟩
      have hm : ¬ hasMore r = false := by simp [hasMore, h1]
      have hne : ¬ r.transactions.isEmpty = true := by simpa using h2
      rw [List.cons_append]
      simp only [paginateFetchCount, if_neg hm, if_neg hne]
      rw [ih (fun x hx => hfull x (List.mem_cons_of_mem r hx))]
      simp only [List.length_cons]
      omega
  · intro pages emptyPage rest hfull hmore hempty
    induction pages with
    | nil =>
      have hm : ¬ hasMore emptyPage = false := by simp [hmore]
      have hne : emptyPage.transactions.isEmpty = true := by simp [hempty]
      simp [paginateFetchCount, if_neg hm, hne]
    | cons r ps ih =>
      rcases hfull r (List.mem_cons_self r ps) with ⟨h1, h2⟩
      have hm : ¬ hasMore r = false := by simp [hasMore, h1]
      have hne : ¬ r.transactions.isEmpty = true := by simpa using h2
      rw [List.cons_append]
      simp only [paginateFetchCount, if_neg hm, if_neg hne]
      rw [ih (fun x hx => hfull x (List.mem_cons_of_mem r hx))]
      simp only [List.length_cons]
      omega

/-- A full page: `count = limit`, non-empty. -/
def pageFull : TransactionsResponse := ⟨2, 2, [txNoCost]⟩

/-- A short page: `count < limit`. -/
def pageShort : TransactionsResponse := ⟨1, 2, [txFeeOnly]⟩

/-- A page that still claims a full count but carries no transactions. -/
def pageEmptyFull : TransactionsResponse := ⟨2, 2, []⟩

/-- Witness for C4: one full page then a short page gives exactly 2
fetches; an empty page with `has_more = true` stops after 1 fetch even
though another response is queued behind it. -/
theorem c4_pagination_witness :
    paginateFetchCount [pageFull, pageShort] = 2 ∧
    paginateFetchCount [pageEmptyFull, pageFull] = 1 :=
  ⟨c4_pagination.2.1 [pageFull] pageShort [] (by decide) (by decide),
   c4_pagination.2.2 [] pageEmptyFull [pageFull] (by decide) (by decide) rfl⟩

/-- The page the second account would deliver in the C8 counterexample:
it carries `txNoCost`, which the claim says should still be exported. -/
def pageAcct2 : TransactionsResponse := ⟨1, 100, [txNoCost]⟩

/-- Counterexample to C8: with two accounts, the first account's single
fetch failing with a transport error, the whole run returns that error —
the second account is never fetched and its transaction `txNoCost`
appears in no output, contrary to the claimed per-account isolation
(`request_transactions(...).await?` in `main` propagates the error out of
the accounts loop). -/
theorem c8_counterexample :
    runAccounts [] [[Except.error "connection reset"], [Except.ok pageAcct2]] =
      Except.error "connection reset" := rfl

/-- C8 (amended): a fetch failure while paginating any account aborts the
entire run: the error propagates out of the account loop, no later
account is fetched, and no transaction collection is returned at all. -/
theorem c8_fetch_error_aborts_run :
    ∀ (s : List Transaction) (script : List (Except String TransactionsResponse))
      (rest : List (List (Except String TransactionsResponse))) (e : String),
      paginateInto s script = .error e →
      runAccounts s (script :: rest) = .error e := by
  intro s script rest e h
  simp [runAccounts, h]

/-- Witness for C8 (amended): a single failing fetch makes the run fail. -/
theorem c8_fetch_error_aborts_run_witness :
    runAccounts [] [[Except.error "boom"]] = Except.error "boom" :=
  c8_fetch_error_aborts_run [] [Except.error "boom"] [] "boom" rfl

theorem ratTrunc_intCast (n : Int) : ratTrunc ((n : Int) : ℚ) = n := by
  unfold ratTrunc
  split
  · exact Int.floor_intCast n
  · exact Int.ceil_intCast n

/-- A raw transaction whose block time (1000 seconds) converts fine. -/
def rawGood : RawTransaction := ⟨none, 1000, .Other, none, none, some 1, 21⟩

/-- A raw transaction whose block time (`1e16` seconds) overflows: `1e16 *
1000.0 as i64` saturates to `i64::MAX` milliseconds, far outside chrono's
representable range, so `from_timestamp_millis` has nothing to return and
the `expect` panics. -/
def rawBad : RawTransaction := ⟨none, 10000000000000000, .Other, none, none, some 2, 22⟩

theorem deserialize_block_time_rawBad :
    deserialize_block_time rawBad.blockTime = none := by
  have h : (rawBad.blockTime * 1000 : ℚ) = ((10000000000000000000 : Int) : ℚ) := by
    norm_num [rawBad]
  rw [deserialize_block_time, h, ratTrunc_intCast]
  decide

theorem deserializeTransaction_rawBad : deserializeTransaction rawBad = none := by
  simp [deserializeTransaction, deserialize_block_time_rawBad]

theorem deserializeTransaction_rawGood :
    deserializeTransaction rawGood = some ⟨none, 1000000, .Other, none, none, some 1, 21⟩ := by
  have h : (rawGood.blockTime * 1000 : ℚ) = ((1000000 : Int) : ℚ) := by
    norm_num [rawGood]
  simp only [deserializeTransaction, deserialize_block_time]
  rw [h, ratTrunc_intCast]
  decide

/-- Counterexample to C9: a page holding a fine transaction (`rawGood`)
and one whose block timestamp is unrepresentable (`rawBad`) deserializes
to nothing at all — the `expect("Can convert timestamp")` panic kills the
whole run, so the valid sibling transaction is lost too, contrary to the
claimed single-transaction exclusion.  The second conjunct shows
`rawGood` alone is perfectly deserializable. -/
theorem c9_counterexample :
    deserializeTransactions [rawGood, rawBad] = none ∧
    deserializeTransaction rawGood = some ⟨none, 1000000, .Other, none, none, some 1, 21⟩ := by
  refine ⟨?_, deserializeTransaction_rawGood⟩
  simp only [deserializeTransactions, deserializeTransaction_rawGood,
    deserializeTransaction_rawBad, Option.some_bind, Option.none_bind, Option.map_none']

/-- C9 (amended): when any transaction's block timestamp cannot be
converted to a representable datetime, deserialization of the whole page
fails (the `expect` panic aborts the run): no transaction of that run is
processed, rather than only the offending one being excluded. -/
theorem c9_bad_timestamp_aborts :
    ∀ (rs : List RawTransaction) (r : RawTransaction), r ∈ rs →
      deserialize_block_time r.blockTime = none →
      deserializeTransactions rs = none := by
  intro rs r
  induction rs with
  | nil =>
    intro hmem _
    cases hmem
  | cons x xs ih =>
    intro hmem hnone
    rcases List.mem_cons.mp hmem with rfl | hx
    · have hdx : deserializeTransaction r = none := by
        simp [deserializeTransaction, hnone]
      simp [deserializeTransactions, hdx]
    · have h2 : deserializeTransactions xs = none := ih hx hnone
      cases hdx : deserializeTransaction x <;> simp [deserializeTransactions, hdx, h2]

/-- Witness for C9 (amended): a page consisting of `rawBad` alone. -/
theorem c9_bad_timestamp_aborts_witness :
    deserializeTransactions [rawBad] = none :=
  c9_bad_timestamp_aborts [rawBad] rawBad (List.mem_singleton.mpr rfl)
    deserialize_block_time_rawBad
